import Mathlib

/-!
# Verification of the roborev storage core

A shallow embedding of `internal/storage/db.go`: the persisted data model
(six SQLite tables), the schema-version machinery (`getSchemaVersion`,
`setSchemaVersion`, `isV1Database`, `migrateV1ToV2`, `migrate`) and
`ResetStaleJobs`, together with the job-queue operations (`EnqueueJob`,
`ClaimJob`, `GetOrCreateRepo`, `GetOrCreateCommit`) that the storage tests
exercise.  Tables are modelled as lists of row records; an absent table is
`Option.none`; a fallible SQL operation returns `Except String`.

The v1→v2 migration script is executed by a single multi-statement
`db.Exec`.  The SQLite driver runs such a script one statement at a time in
autocommit mode (there is no `BEGIN`/`COMMIT` in the script and no `db.Begin`
in the Go code), so each statement commits on its own.  We model the script
as an explicit list of state transformers and execution as a left-to-right
fold; a crash or failure after `n` statements leaves the state produced by
the first `n` statements, which the prefix-execution function below makes
observable.
-/

/-- Job status, per the `CHECK(status IN ('queued','running','done','failed'))`
constraint on `review_jobs.status`. -/
inductive JobStatus where
  | queued
  | running
  | done
  | failed
deriving DecidableEq, Repr

/-- A row of the (v2) `review_jobs` table, per the schema in `db.go`.
Nullable columns are `Option`s. -/
structure JobRow where
  id : Nat
  repo_id : Nat
  commit_id : Option Nat
  git_ref : String
  agent : String
  status : JobStatus
  enqueued_at : String
  started_at : Option String
  finished_at : Option String
  worker_id : Option String
  error : Option String
deriving DecidableEq, Repr

/-- A row of the legacy (v1) `review_jobs` table: identical layout except the
column `commit_sha` stands where v2 has `git_ref` (see the v1 schema built in
`TestMigrationV1ToV2`). -/
structure JobRowV1 where
  id : Nat
  repo_id : Nat
  commit_id : Option Nat
  commit_sha : String
  agent : String
  status : JobStatus
  enqueued_at : String
  started_at : Option String
  finished_at : Option String
  worker_id : Option String
  error : Option String
deriving DecidableEq, Repr

/-- A row of the `repos` table. -/
structure RepoRow where
  id : Nat
  root_path : String
  name : String
  created_at : String
deriving DecidableEq, Repr

/-- A row of the `commits` table. -/
structure CommitRow where
  id : Nat
  repo_id : Nat
  sha : String
  author : String
  subject : String
  timestamp : String
  created_at : String
deriving DecidableEq, Repr

/-- A row of the `reviews` table. -/
structure ReviewRow where
  id : Nat
  job_id : Nat
  agent : String
  prompt : String
  output : String
  created_at : String
deriving DecidableEq, Repr

/-- A row of the `responses` table. -/
structure ResponseRow where
  id : Nat
  commit_id : Nat
  responder : String
  response : String
  created_at : String
deriving DecidableEq, Repr

/-- The `review_jobs` table may be absent, in the legacy v1 layout
(`commit_sha` column), or in the current v2 layout (`git_ref` column). -/
inductive JobsTable where
  | absent
  | v1 (rows : List JobRowV1)
  | v2 (rows : List JobRow)
deriving DecidableEq, Repr

/-- The whole database file as seen by the migration code.  `none` means the
table does not exist.  `jobs_new` is the shadow table `review_jobs_new`
created mid-migration by `migrateV1ToV2`. -/
structure DBState where
  jobs : JobsTable
  jobs_new : Option (List JobRow)
  schema_version : Option (List Int)
  repos : Option (List RepoRow)
  commits : Option (List CommitRow)
  reviews : Option (List ReviewRow)
  responses : Option (List ResponseRow)
deriving DecidableEq, Repr

/-- Constant `currentSchemaVersion` from `db.go`. -/
def currentSchemaVersion : Int := 2

/-- Model of `isV1Database`: scans `PRAGMA table_info(review_jobs)` for a column named
`commit_sha`; the scan finds one exactly when the table exists in the v1
layout (an absent table yields no rows, the v2 layout has `git_ref`). -/
def DBState.isV1Database (s : DBState) : Bool :=
  match s.jobs with
  | JobsTable.v1 _ => true
  | _ => false

/-- The identical `commit_sha`-column probe performed again at the top of
`migrateV1ToV2`. -/
def DBState.hasCommitSHA (s : DBState) : Bool :=
  match s.jobs with
  | JobsTable.v1 _ => true
  | _ => false

/-- Model of `getSchemaVersion`: `SELECT version FROM schema_version LIMIT 1`; any
error — the table not existing, or `Scan` failing because there is no row —
makes it return 0. -/
def getSchemaVersion (table : Option (List Int)) : Int :=
  match table with
  | none => 0
  | some [] => 0
  | some (v :: _) => v

/-- Model of `setSchemaVersion` at the level of the `schema_version` table:
`DELETE FROM schema_version` (no WHERE clause, so every row goes), then
`INSERT INTO schema_version (version) VALUES (?)`, whose
`version INTEGER PRIMARY KEY` constraint rejects a duplicate value. -/
def setSchemaVersionTable (rows : List Int) (v : Int) : Except String (List Int) :=
  let deleted : List Int := []
  if v ∈ deleted then Except.error "UNIQUE constraint failed: schema_version.version"
  else Except.ok (deleted ++ [v])

/-- Model of `setSchemaVersion` on the database: both statements fail if the
`schema_version` table does not exist. -/
def DBState.setSchemaVersion (s : DBState) (v : Int) : Except String DBState :=
  match s.schema_version with
  | none => Except.error "no such table: schema_version"
  | some rows =>
      match setSchemaVersionTable rows v with
      | Except.ok rows2 => Except.ok { s with schema_version := some rows2 }
      | Except.error e => Except.error e

/-- Translate one v1 row into the v2 layout, as the
`INSERT INTO review_jobs_new ... SELECT id, repo_id, commit_id, commit_sha, ...`
statement does: `git_ref` receives the old `commit_sha`, every other column is
copied unchanged. -/
def migrateRowV1ToV2 (r : JobRowV1) : JobRow :=
  { id := r.id
    repo_id := r.repo_id
    commit_id := r.commit_id
    git_ref := r.commit_sha
    agent := r.agent
    status := r.status
    enqueued_at := r.enqueued_at
    started_at := r.started_at
    finished_at := r.finished_at
    worker_id := r.worker_id
    error := r.error }

/-- One SQL statement of the migration script, as a state transformer. -/
def MigStmt : Type := DBState → Except String DBState

/-- Statement `CREATE TABLE IF NOT EXISTS schema_version (...)`. -/
def stmtCreateSchemaVersion : MigStmt := fun s =>
  Except.ok { s with schema_version := some (s.schema_version.getD []) }

/-- Statement `CREATE TABLE review_jobs_new (...)` — no `IF NOT EXISTS`, so it fails if
the shadow table is already there. -/
def stmtCreateReviewJobsNew : MigStmt := fun s =>
  match s.jobs_new with
  | some _ => Except.error "table review_jobs_new already exists"
  | none => Except.ok { s with jobs_new := some [] }

/-- Statement `INSERT INTO review_jobs_new (...) SELECT ..., commit_sha, ... FROM
review_jobs`: fails unless `review_jobs` exists in the v1 layout (otherwise
the selected column `commit_sha` is missing) and `review_jobs_new` exists. -/
def stmtCopyRows : MigStmt := fun s =>
  match s.jobs, s.jobs_new with
  | JobsTable.v1 rows, some acc =>
      Except.ok { s with jobs_new := some (acc ++ rows.map migrateRowV1ToV2) }
  | JobsTable.v1 _, none => Except.error "no such table: review_jobs_new"
  | _, _ => Except.error "no such column: commit_sha"

/-- Statement `DROP TABLE review_jobs`. -/
def stmtDropReviewJobs : MigStmt := fun s =>
  match s.jobs with
  | JobsTable.absent => Except.error "no such table: review_jobs"
  | _ => Except.ok { s with jobs := JobsTable.absent }

/-- Statement `ALTER TABLE review_jobs_new RENAME TO review_jobs`. -/
def stmtRenameReviewJobsNew : MigStmt := fun s =>
  match s.jobs_new, s.jobs with
  | some rows, JobsTable.absent =>
      Except.ok { s with jobs := JobsTable.v2 rows, jobs_new := none }
  | none, _ => Except.error "no such table: review_jobs_new"
  | some _, _ => Except.error "there is already another table named review_jobs"

/-- Statement `CREATE INDEX IF NOT EXISTS ...` — indexes do not change any row, so the
three index statements are no-ops on the modelled state. -/
def stmtCreateIndex : MigStmt := fun s => Except.ok s

/-- The migration script passed to the single `db.Exec` call in
`migrateV1ToV2`, in statement order. -/
def migrationScript : List MigStmt :=
  [stmtCreateSchemaVersion, stmtCreateReviewJobsNew, stmtCopyRows,
   stmtDropReviewJobs, stmtRenameReviewJobsNew,
   stmtCreateIndex, stmtCreateIndex, stmtCreateIndex]

/-- Execute a script statement by statement; a failing statement stops
execution, and — each statement having auto-committed — everything before it
stays applied. -/
def execStmts : List MigStmt → DBState → Except String DBState
  | [], s => Except.ok s
  | st :: rest, s =>
      match st s with
      | Except.ok s1 => execStmts rest s1
      | Except.error e => Except.error e

/-- The state left behind when execution stops (failure or crash) after the
first `n` statements of a script. -/
def execFirstStmts (n : Nat) (script : List MigStmt) (s : DBState) :
    Except String DBState :=
  execStmts (script.take n) s

/-- Model of `migrateV1ToV2`: re-probe for the `commit_sha` column; without it, only
ensure `schema_version` exists; with it, run the rewrite script. -/
def DBState.migrateV1ToV2 (s : DBState) : Except String DBState :=
  if s.hasCommitSHA then execStmts migrationScript s
  else Except.ok { s with schema_version := some (s.schema_version.getD []) }

/-- The idempotent full schema (`CREATE TABLE IF NOT EXISTS` for the six
tables): every table that is absent is created empty, every existing table is
left exactly as it is. -/
def runSchema (s : DBState) : DBState :=
  { s with
    schema_version := some (s.schema_version.getD [])
    repos := some (s.repos.getD [])
    commits := some (s.commits.getD [])
    jobs := match s.jobs with
            | JobsTable.absent => JobsTable.v2 []
            | t => t
    reviews := some (s.reviews.getD [])
    responses := some (s.responses.getD []) }

/-- Model of `migrate`: legacy databases are upgraded and stamped; a version of 0
(fresh or unreadable) gets the full schema and the stamp; a version at or
above current is a no-op; anything else is only restamped. -/
def DBState.migrate (s : DBState) : Except String DBState :=
  if s.isV1Database then
    match s.migrateV1ToV2 with
    | Except.ok s1 => s1.setSchemaVersion currentSchemaVersion
    | Except.error e => Except.error e
  else
    let version := getSchemaVersion s.schema_version
    if version = 0 then
      (runSchema s).setSchemaVersion currentSchemaVersion
    else if version ≥ currentSchemaVersion then
      Except.ok s
    else
      s.setSchemaVersion currentSchemaVersion

/-- Model of `ResetStaleJobs`, effect of the `UPDATE` on one row: a `running` row
becomes `queued` with `worker_id` and `started_at` set to NULL; the `WHERE
status = 'running'` clause leaves every other row alone. -/
def resetStaleRow (j : JobRow) : JobRow :=
  if j.status = JobStatus.running then
    { j with status := JobStatus.queued, worker_id := none, started_at := none }
  else j

/-- Model of `ResetStaleJobs` on the whole `review_jobs` table. -/
def resetStaleJobs (jobs : List JobRow) : List JobRow :=
  jobs.map resetStaleRow

/-!
## The job queue (spec-modelled operations)

`EnqueueJob`, `ClaimJob` and the get-or-create operations live in a file of
the `storage` package that is not part of this snapshot; only their callers
(the package tests) are.  They are therefore modelled from the spec, §4.3 and
§4.2, and every statement about them is a statement about that model.
-/

/-- The queue as the workers see it: the `review_jobs` rows, the next
auto-increment identity, and the current clock reading (`datetime('now')`),
held constant over a burst of operations. -/
structure QueueState where
  jobs : List JobRow
  nextId : Nat
  now : String
deriving DecidableEq, Repr

/-- An empty queue; identities start at 1 as SQLite rowids do. -/
def emptyQueue (now : String) : QueueState :=
  { jobs := [], nextId := 1, now := now }

/-- Modelled from the spec: `EnqueueJob(repoID, commitID, gitRef, agent)` is
not under `src/` (only its test callers are).  Per §4.3 it inserts a new job
in `queued` with enqueue time now and a fresh, monotonically increasing
identity; no dedup. -/
def enqueueJob (s : QueueState) (repoID : Nat) (commitID : Option Nat)
    (gitRef agent : String) : JobRow × QueueState :=
  let j : JobRow :=
    { id := s.nextId
      repo_id := repoID
      commit_id := commitID
      git_ref := gitRef
      agent := agent
      status := JobStatus.queued
      enqueued_at := s.now
      started_at := none
      finished_at := none
      worker_id := none
      error := none }
  (j, { s with jobs := s.jobs ++ [j], nextId := s.nextId + 1 })

/-- The row of least identity in a list, the first one on a tie. -/
def minIdJob : List JobRow → Option JobRow
  | [] => none
  | j :: rest =>
      match minIdJob rest with
      | none => some j
      | some b => if j.id ≤ b.id then some j else some b

/-- The oldest `queued` job: smallest identity among the rows in `queued`
(by §4.3 the enqueue sequence is the monotonically increasing identity, ties
broken by that identity). -/
def oldestQueued (jobs : List JobRow) : Option JobRow :=
  minIdJob (jobs.filter (fun j => j.status = JobStatus.queued))

/-- Statement `UPDATE review_jobs SET ... WHERE id = i`: replace every row whose
identity is `i` by `j2` (the identity is a primary key, so at most one row
matches). -/
def updateJob (jobs : List JobRow) (i : Nat) (j2 : JobRow) : List JobRow :=
  jobs.map (fun j => if j.id = i then j2 else j)

/-- Modelled from the spec: the transition `Claim` applies to the selected
row — set `running`, record the worker identifier and start time = now. -/
def claimedRow (s : QueueState) (workerID : String) (j : JobRow) : JobRow :=
  { j with status := JobStatus.running
           worker_id := some workerID
           started_at := some s.now }

/-- Modelled from the spec: `ClaimJob(workerID)` is not under `src/` (only
its test callers are).  Per §4.3 it atomically selects the single oldest
`queued` job across all repos and in the same atomic step transitions it to
`running`, recording the worker identifier and start time = now; with no
`queued` job it returns an explicit "no job" result (`none`), not an
error. -/
def claimJob (s : QueueState) (workerID : String) : Option JobRow × QueueState :=
  match oldestQueued s.jobs with
  | none => (none, s)
  | some j =>
      (some (claimedRow s workerID j),
       { s with jobs := updateJob s.jobs j.id (claimedRow s workerID j) })

/-- A burst of `Claim` calls, one per worker.  Each call is one indivisible
read-modify-write (§4.3), so any concurrent execution of the calls is
equivalent to running them atomically in some order; quantifying over the
worker list covers every such order. -/
def runClaims (s : QueueState) : List String → List (Option JobRow) × QueueState
  | [] => ([], s)
  | w :: ws =>
      let r := claimJob s w
      let rest := runClaims r.2 ws
      (r.1 :: rest.1, rest.2)

/-- The identities of the `queued` rows. -/
def queuedIds (jobs : List JobRow) : List Nat :=
  (jobs.filter (fun j => j.status = JobStatus.queued)).map JobRow.id

/-- The identities of the jobs a burst of claims handed out. -/
def claimedIds (results : List (Option JobRow)) : List Nat :=
  results.filterMap (fun r => r.map JobRow.id)

/-!
## Repo and commit registries (spec-modelled operations)
-/

/-- The registry tables `repos` and `commits` with their auto-increment
counters and the clock. -/
structure RegistryState where
  repos : List RepoRow
  commits : List CommitRow
  nextRepoId : Nat
  nextCommitId : Nat
  now : String
deriving DecidableEq, Repr

/-- Query `SELECT ... FROM repos WHERE root_path = ?`. -/
def findRepo (repos : List RepoRow) (rootPath : String) : Option RepoRow :=
  repos.find? (fun r => r.root_path == rootPath)

/-- Query `SELECT ... FROM commits WHERE sha = ?`. -/
def findCommit (commits : List CommitRow) (sha : String) : Option CommitRow :=
  commits.find? (fun c => c.sha == sha)

/-- The last path segment of a root path, the repo display name (§4.2). -/
def lastPathSegment (p : String) : String :=
  (p.splitOn "/").getLastD p

/-- Modelled from the spec: the insert half of `GetOrCreateRepo`.  Per §4.2
the `UNIQUE` constraint on `root_path` is the backstop: a conflict on insert
falls back to re-reading the existing row rather than surfacing an error. -/
def insertRepoOrExisting (s : RegistryState) (rootPath : String) :
    RepoRow × RegistryState :=
  match findRepo s.repos rootPath with
  | some r => (r, s)
  | none =>
      let r : RepoRow :=
        { id := s.nextRepoId
          root_path := rootPath
          name := lastPathSegment rootPath
          created_at := s.now }
      (r, { s with repos := s.repos ++ [r], nextRepoId := s.nextRepoId + 1 })

/-- Modelled from the spec: `GetOrCreateRepo(rootPath)` is not under `src/`
(only its test callers are).  Per §4.2 it returns the existing entity if the
natural key is already stored, else inserts and returns the new one. -/
def getOrCreateRepo (s : RegistryState) (rootPath : String) :
    RepoRow × RegistryState :=
  match findRepo s.repos rootPath with
  | some r => (r, s)
  | none => insertRepoOrExisting s rootPath

/-- Modelled from the spec: the insert half of `GetOrCreateCommit`, with the
same conflict-fallback on the `UNIQUE` constraint on `sha`. -/
def insertCommitOrExisting (s : RegistryState) (repoId : Nat)
    (sha author subject timestamp : String) : CommitRow × RegistryState :=
  match findCommit s.commits sha with
  | some c => (c, s)
  | none =>
      let c : CommitRow :=
        { id := s.nextCommitId
          repo_id := repoId
          sha := sha
          author := author
          subject := subject
          timestamp := timestamp
          created_at := s.now }
      (c, { s with commits := s.commits ++ [c], nextCommitId := s.nextCommitId + 1 })

/-- Modelled from the spec: `GetOrCreateCommit(repoID, sha, ...)` is not
under `src/` (only its test callers are).  Per §4.2 it is get-or-create keyed
by the globally unique commit hash. -/
def getOrCreateCommit (s : RegistryState) (repoId : Nat)
    (sha author subject timestamp : String) : CommitRow × RegistryState :=
  match findCommit s.commits sha with
  | some c => (c, s)
  | none => insertCommitOrExisting s repoId sha author subject timestamp

/-!
## Concrete states and scenarios used by the witnesses
-/

/-- The §8 FIFO scenario: enqueue three jobs with git refs `r0, r1, r2` (any
repos, agents), then claim three times with any worker identities, and read
off the git refs of the three claimed jobs in call order. -/
def fifoClaimedRefs (now : String) (p0 p1 p2 : Nat) (r0 r1 r2 a0 a1 a2 : String)
    (w0 w1 w2 : String) : List (Option String) :=
  let e0 := enqueueJob (emptyQueue now) p0 none r0 a0
  let e1 := enqueueJob e0.2 p1 none r1 a1
  let e2 := enqueueJob e1.2 p2 none r2 a2
  let c0 := claimJob e2.2 w0
  let c1 := claimJob c0.2 w1
  let c2 := claimJob c1.2 w2
  [c0.1.map JobRow.git_ref, c1.1.map JobRow.git_ref, c2.1.map JobRow.git_ref]

/-- A `running` job row. -/
def jobRunEx : JobRow :=
  { id := 1, repo_id := 1, commit_id := some 1, git_ref := "abc123",
    agent := "codex", status := JobStatus.running,
    enqueued_at := "t0", started_at := some "t1", finished_at := none,
    worker_id := some "worker-1", error := none }

/-- A `done` job row. -/
def jobDoneEx : JobRow :=
  { id := 2, repo_id := 1, commit_id := some 2, git_ref := "def456",
    agent := "codex", status := JobStatus.done,
    enqueued_at := "t0", started_at := some "t1", finished_at := some "t2",
    worker_id := some "worker-1", error := none }

/-- A `queued` job row. -/
def jobQueuedEx : JobRow :=
  { id := 3, repo_id := 2, commit_id := none, git_ref := "feature",
    agent := "codex", status := JobStatus.queued,
    enqueued_at := "t0", started_at := none, finished_at := none,
    worker_id := none, error := none }

/-- A second `queued` job row, younger than `jobQueuedEx`. -/
def jobQueuedEx2 : JobRow :=
  { id := 5, repo_id := 1, commit_id := some 3, git_ref := "main",
    agent := "codex", status := JobStatus.queued,
    enqueued_at := "t0", started_at := none, finished_at := none,
    worker_id := none, error := none }

/-- A queue holding two `queued` jobs and one `done` job. -/
def queueEx : QueueState :=
  { jobs := [jobQueuedEx, jobDoneEx, jobQueuedEx2], nextId := 6, now := "t3" }

/-- A queue with no `queued` job at all. -/
def queueNoQueuedEx : QueueState :=
  { jobs := [jobRunEx, jobDoneEx], nextId := 3, now := "t3" }

/-- A legacy v1 `review_jobs` row, as inserted by `TestMigrationV1ToV2`. -/
def jobV1Ex : JobRowV1 :=
  { id := 1, repo_id := 1, commit_id := some 1, commit_sha := "abc123",
    agent := "codex", status := JobStatus.done,
    enqueued_at := "2024-01-01T00:00:00Z", started_at := none,
    finished_at := none, worker_id := none, error := none }

/-- A legacy v1 database: `review_jobs` in the old layout with one row, no
`schema_version` table. -/
def dbV1Ex : DBState :=
  { jobs := JobsTable.v1 [jobV1Ex], jobs_new := none, schema_version := none,
    repos := some [{ id := 1, root_path := "/test/repo", name := "repo",
                     created_at := "t" }],
    commits := some [], reviews := some [], responses := some [] }

/-- The database state left behind when the migration script stops after its
third statement: the old table still there, the shadow table full. -/
def dbV1MidEx : DBState :=
  { dbV1Ex with schema_version := some [],
                jobs_new := some [migrateRowV1ToV2 jobV1Ex] }

/-- A second legacy v1 database with two rows, for the migration witness. -/
def jobV1Ex2 : JobRowV1 :=
  { id := 2, repo_id := 1, commit_id := none, commit_sha := "deadbeef",
    agent := "claude", status := JobStatus.queued,
    enqueued_at := "2024-02-02T00:00:00Z", started_at := none,
    finished_at := none, worker_id := none, error := some "boom" }

/-- A legacy v1 database holding `K = 2` rows. -/
def dbV1TwoRowsEx : DBState :=
  { jobs := JobsTable.v1 [jobV1Ex, jobV1Ex2], jobs_new := none,
    schema_version := none, repos := some [], commits := some [],
    reviews := some [], responses := some [] }

/-- A v2 database whose `schema_version` table has accumulated several rows. -/
def dbMultiVersionEx : DBState :=
  { jobs := JobsTable.v2 [], jobs_new := none, schema_version := some [0, 1, 5],
    repos := some [], commits := some [], reviews := some [], responses := some [] }

/-- A v2 database stamped with the intermediate version 1. -/
def dbVersionOneEx : DBState :=
  { jobs := JobsTable.v2 [jobDoneEx], jobs_new := none,
    schema_version := some [1], repos := some [], commits := some [],
    reviews := some [], responses := some [] }

/-- A database whose `schema_version` table exists but is empty. -/
def dbEmptyVersionEx : DBState :=
  { jobs := JobsTable.v2 [jobDoneEx], jobs_new := none,
    schema_version := some [], repos := some [], commits := some [],
    reviews := some [], responses := some [] }

/-- An empty registry. -/
def registryEx : RegistryState :=
  { repos := [], commits := [], nextRepoId := 1, nextCommitId := 1, now := "t" }

/-- A repo row already present in a registry. -/
def repoEx : RepoRow :=
  { id := 7, root_path := "/tmp/test-repo", name := "test-repo", created_at := "t" }

/-- A registry already holding `repoEx`. -/
def registryWithRepoEx : RegistryState :=
  { repos := [repoEx], commits := [], nextRepoId := 8, nextCommitId := 1, now := "t" }

/-!
## Helper lemmas
-/

/-- Indexing commutes with `map` below the length, whatever the defaults. -/
theorem getD_map_lt {α β : Type} (f : α → β) (l : List α) (i : Nat)
    (d : β) (d2 : α) (h : i < l.length) :
    (l.map f).getD i d = f (l.getD i d2) := by
  induction l generalizing i with
  | nil => simp at h
  | cons a rest ih =>
      cases i with
      | zero => simp [List.getD]
      | succ n =>
          simp only [List.map_cons, List.getD_cons_succ]
          exact ih n (by simpa using h)

/-- A filter that rejects every element of a list is empty. -/
theorem filter_eq_nil_of_forall {α : Type} (p : α → Bool) (l : List α)
    (h : ∀ a ∈ l, p a = false) : l.filter p = [] := by
  induction l with
  | nil => rfl
  | cons a rest ih =>
      simp only [List.filter_cons, h a (List.mem_cons_self a rest),
        Bool.false_eq_true, if_false]
      exact ih (fun b hb => h b (List.mem_cons_of_mem a hb))

/-!
## The claims
-/

/-- C5: for every prior state of the `schema_version` table — zero, one or
many rows — a successful `setSchemaVersion(v)` (a delete-all followed by a
single insert, never an in-place update) leaves the table holding exactly one
row whose value is `v`. -/
theorem setSchemaVersion_single_row (s : DBState) (v : Int) (s2 : DBState)
    (h : s.setSchemaVersion v = Except.ok s2) :
    s2.schema_version = some [v] := by
  unfold DBState.setSchemaVersion at h
  cases hsv : s.schema_version with
  | none => rw [hsv] at h; exact absurd h (by simp)
  | some rows =>
      rw [hsv] at h
      simp only [setSchemaVersionTable, List.not_mem_nil, if_false,
        List.nil_append, Except.ok.injEq] at h
      rw [← h]

theorem setSchemaVersion_single_row_witness :
    ({ dbMultiVersionEx with schema_version := some [(2:Int)] } : DBState).schema_version
      = some [2] :=
  setSchemaVersion_single_row dbMultiVersionEx 2
    { dbMultiVersionEx with schema_version := some [(2:Int)] } rfl

/-- C6: `ResetStaleJobs` turns every `running` row into a `queued` row with
`worker_id` and `started_at` cleared, keeps every other field of those rows,
leaves every non-`running` row (queued, done, failed) entirely untouched, and
never adds or removes rows. -/
theorem resetStaleJobs_frame (jobs : List JobRow) (i : Nat) (d : JobRow)
    (h : i < jobs.length) :
    (resetStaleJobs jobs).length = jobs.length ∧
    ((jobs.getD i d).status = JobStatus.running →
      (resetStaleJobs jobs).getD i d =
        { jobs.getD i d with status := JobStatus.queued, worker_id := none,
                             started_at := none }) ∧
    ((jobs.getD i d).status ≠ JobStatus.running →
      (resetStaleJobs jobs).getD i d = jobs.getD i d) := by
  refine ⟨by simp [resetStaleJobs], ?_, ?_⟩
  · intro hrun
    rw [resetStaleJobs, getD_map_lt resetStaleRow jobs i d d h]
    unfold resetStaleRow
    rw [if_pos hrun]
  · intro hne
    rw [resetStaleJobs, getD_map_lt resetStaleRow jobs i d d h]
    unfold resetStaleRow
    rw [if_neg hne]

theorem resetStaleJobs_frame_witness :
    (resetStaleJobs [jobRunEx, jobDoneEx]).length
        = ([jobRunEx, jobDoneEx] : List JobRow).length ∧
    ((([jobRunEx, jobDoneEx] : List JobRow).getD 0 jobDoneEx).status = JobStatus.running →
      (resetStaleJobs [jobRunEx, jobDoneEx]).getD 0 jobDoneEx =
        { ([jobRunEx, jobDoneEx] : List JobRow).getD 0 jobDoneEx with
          status := JobStatus.queued, worker_id := none, started_at := none }) ∧
    ((([jobRunEx, jobDoneEx] : List JobRow).getD 0 jobDoneEx).status ≠ JobStatus.running →
      (resetStaleJobs [jobRunEx, jobDoneEx]).getD 0 jobDoneEx =
        ([jobRunEx, jobDoneEx] : List JobRow).getD 0 jobDoneEx) :=
  resetStaleJobs_frame [jobRunEx, jobDoneEx] 0 jobDoneEx (by decide)

/-- C7: when no job is `queued`, `Claim` returns the explicit "no job" result
(`none`, not an error) and leaves the store exactly as it was. -/
theorem claimJob_no_queued (s : QueueState) (w : String)
    (h : ∀ j ∈ s.jobs, j.status ≠ JobStatus.queued) :
    claimJob s w = (none, s) := by
  have hfil : s.jobs.filter (fun j => j.status = JobStatus.queued) = [] := by
    refine filter_eq_nil_of_forall _ _ (fun j hj => ?_)
    simp only [decide_eq_false_iff_not]
    exact h j hj
  simp [claimJob, oldestQueued, hfil, minIdJob]

theorem claimJob_no_queued_witness :
    claimJob queueNoQueuedEx "worker-2" = (none, queueNoQueuedEx) :=
  claimJob_no_queued queueNoQueuedEx "worker-2" (by decide)

/-- C9: on a non-legacy database stamped with a version `v`, `0 < v < 2`,
`migrate` only restamps the version table to 2: it runs no schema statement
and leaves every other table exactly as it was. -/
theorem migrate_intermediate_version_only_stamps (s : DBState) (v : Int)
    (hV1 : s.isV1Database = false)
    (hv : getSchemaVersion s.schema_version = v)
    (h0 : 0 < v) (h2 : v < currentSchemaVersion) :
    s.migrate = Except.ok { s with schema_version := some [currentSchemaVersion] } := by
  obtain ⟨rows, hrows⟩ : ∃ rows, s.schema_version = some rows := by
    cases hsv : s.schema_version with
    | none =>
        rw [hsv] at hv
        exact absurd (hv ▸ h0) (by simp [getSchemaVersion])
    | some rows => exact ⟨rows, rfl⟩
  have hne : ¬ (getSchemaVersion s.schema_version = 0) := by
    rw [hv]; omega
  have hge : ¬ (getSchemaVersion s.schema_version ≥ currentSchemaVersion) := by
    rw [hv]; exact not_le.mpr h2
  unfold DBState.migrate
  rw [hV1]
  simp only [Bool.false_eq_true, if_false, if_neg hne, if_neg hge]
  unfold DBState.setSchemaVersion
  rw [hrows]
  simp [setSchemaVersionTable]

theorem migrate_intermediate_version_only_stamps_witness :
    dbVersionOneEx.migrate =
      Except.ok { dbVersionOneEx with schema_version := some [currentSchemaVersion] } :=
  migrate_intermediate_version_only_stamps dbVersionOneEx 1 (by decide) (by decide)
    (by decide) (by decide)

/-- C10: `getSchemaVersion` turns every failing version read — the
`schema_version` table missing entirely, or holding no row — into version 0,
and `migrate` then applies the full idempotent schema (and stamps version 2)
instead of failing. -/
theorem getSchemaVersion_error_is_zero :
    getSchemaVersion none = 0 ∧ getSchemaVersion (some []) = 0 ∧
    ∀ s : DBState, s.isV1Database = false →
      (s.schema_version = none ∨ s.schema_version = some []) →
      s.migrate = Except.ok { runSchema s with
                              schema_version := some [currentSchemaVersion] } := by
  refine ⟨rfl, rfl, ?_⟩
  intro s hV1 hsv
  have hv0 : getSchemaVersion s.schema_version = 0 := by
    rcases hsv with h | h <;> rw [h] <;> rfl
  have hrs : (runSchema s).schema_version = some (s.schema_version.getD []) := rfl
  unfold DBState.migrate
  rw [hV1]
  simp only [Bool.false_eq_true, if_false, hv0, if_pos rfl]
  unfold DBState.setSchemaVersion
  rw [hrs]
  simp [setSchemaVersionTable]

theorem getSchemaVersion_error_is_zero_witness :
    dbEmptyVersionEx.migrate =
      Except.ok { runSchema dbEmptyVersionEx with
                  schema_version := some [currentSchemaVersion] } :=
  getSchemaVersion_error_is_zero.2.2 dbEmptyVersionEx (by decide) (Or.inr rfl)

/-- C4 (refuted): the five-statement rewrite script of `migrateV1ToV2` is
executed by one multi-statement `Exec` in autocommit mode, not inside a
transaction, so stopping after the third statement (the row copy) leaves a
changed store in which BOTH the old `review_jobs` (v1 layout, all rows) and
the shadow `review_jobs_new` (all rows, new layout) hold valid data —
contradicting "if any step fails, the store is left exactly as it was". -/
theorem migrateV1ToV2_prefix_leaves_both_tables :
    execFirstStmts 3 migrationScript dbV1Ex = Except.ok dbV1MidEx ∧
    dbV1MidEx.jobs = JobsTable.v1 [jobV1Ex] ∧
    dbV1MidEx.jobs_new = some [migrateRowV1ToV2 jobV1Ex] ∧
    dbV1MidEx ≠ dbV1Ex :=
  ⟨rfl, rfl, rfl, by decide⟩

/-- C3: opening a legacy v1 store (a `review_jobs` table carrying the
`commit_sha` column, `K` rows, no shadow table) migrates it to a `review_jobs`
table with the same `K` rows in which `git_ref` carries each row's former
`commit_sha` and every other column and the row identity are preserved, the
`commit_sha` column no longer exists, the recorded schema version is 2, and
running `migrate` again changes nothing. -/
theorem migrate_v1_preserves_rows (s s2 : DBState) (rows : List JobRowV1)
    (hjobs : s.jobs = JobsTable.v1 rows) (hnew : s.jobs_new = none)
    (hs2 : s2 = { s with jobs := JobsTable.v2 (rows.map migrateRowV1ToV2),
                         jobs_new := none,
                         schema_version := some [currentSchemaVersion] }) :
    s.migrate = Except.ok s2 ∧
    (rows.map migrateRowV1ToV2).length = rows.length ∧
    (∀ r ∈ rows, migrateRowV1ToV2 r =
      { id := r.id, repo_id := r.repo_id, commit_id := r.commit_id,
        git_ref := r.commit_sha, agent := r.agent, status := r.status,
        enqueued_at := r.enqueued_at, started_at := r.started_at,
        finished_at := r.finished_at, worker_id := r.worker_id,
        error := r.error }) ∧
    s2.hasCommitSHA = false ∧
    getSchemaVersion s2.schema_version = currentSchemaVersion ∧
    s2.migrate = Except.ok s2 := by
  subst hs2
  obtain ⟨jt, jn, sv, rp, cm, rv, rs⟩ := s
  dsimp only at hjobs hnew
  subst hjobs
  subst hnew
  refine ⟨?_, by simp, fun r _ => rfl, rfl, rfl, ?_⟩
  · simp [DBState.migrate, DBState.isV1Database, DBState.migrateV1ToV2,
      DBState.hasCommitSHA, migrationScript, execStmts, stmtCreateSchemaVersion,
      stmtCreateReviewJobsNew, stmtCopyRows, stmtDropReviewJobs,
      stmtRenameReviewJobsNew, stmtCreateIndex, DBState.setSchemaVersion,
      setSchemaVersionTable]
  · simp [DBState.migrate, DBState.isV1Database, getSchemaVersion,
      currentSchemaVersion]

theorem migrate_v1_preserves_rows_witness :
    dbV1TwoRowsEx.migrate = Except.ok
      { dbV1TwoRowsEx with
        jobs := JobsTable.v2 (([jobV1Ex, jobV1Ex2] : List JobRowV1).map migrateRowV1ToV2),
        jobs_new := none,
        schema_version := some [currentSchemaVersion] } ∧
    (([jobV1Ex, jobV1Ex2] : List JobRowV1).map migrateRowV1ToV2).length
      = ([jobV1Ex, jobV1Ex2] : List JobRowV1).length :=
  ⟨(migrate_v1_preserves_rows dbV1TwoRowsEx _ [jobV1Ex, jobV1Ex2] rfl rfl rfl).1,
   (migrate_v1_preserves_rows dbV1TwoRowsEx _ [jobV1Ex, jobV1Ex2] rfl rfl rfl).2.1⟩

/-- Searching an appended list starts over on the suffix when the whole
first part rejects. -/
theorem find?_append_of_none {α : Type} (p : α → Bool) (l1 l2 : List α)
    (h : l1.find? p = none) : (l1 ++ l2).find? p = l2.find? p := by
  induction l1 with
  | nil => rfl
  | cons a rest ih =>
      cases hpa : p a with
      | true => simp [List.find?_cons, hpa] at h
      | false =>
          simp only [List.find?_cons, hpa] at h
          simpa [List.find?_cons, hpa] using ih h

/-- A lookup hit makes `getOrCreateRepo` return the stored row unchanged. -/
theorem getOrCreateRepo_of_found {s : RegistryState} {k : String} {r : RepoRow}
    (h : findRepo s.repos k = some r) : getOrCreateRepo s k = (r, s) := by
  simp [getOrCreateRepo, h]

/-- A lookup hit makes `getOrCreateCommit` return the stored row unchanged. -/
theorem getOrCreateCommit_of_found {s : RegistryState} {rid : Nat}
    {sha a sb ts : String} {c : CommitRow}
    (h : findCommit s.commits sha = some c) :
    getOrCreateCommit s rid sha a sb ts = (c, s) := by
  simp [getOrCreateCommit, h]

/-- C8: both get-or-create operations are idempotent on their natural key —
a second call with the same repo root path (resp. commit hash) returns the
very same row, same identity, and changes nothing — and a uniqueness conflict
on the insert path falls back to re-reading the existing row instead of
surfacing an error. -/
theorem getOrCreate_idempotent :
    (∀ (s : RegistryState) (k : String),
      (getOrCreateRepo (getOrCreateRepo s k).2 k).1 = (getOrCreateRepo s k).1 ∧
      (getOrCreateRepo (getOrCreateRepo s k).2 k).2 = (getOrCreateRepo s k).2 ∧
      (getOrCreateRepo (getOrCreateRepo s k).2 k).1.id = (getOrCreateRepo s k).1.id) ∧
    (∀ (s : RegistryState) (rid : Nat) (sha a sb ts : String),
      (getOrCreateCommit (getOrCreateCommit s rid sha a sb ts).2 rid sha a sb ts).1 =
        (getOrCreateCommit s rid sha a sb ts).1 ∧
      (getOrCreateCommit (getOrCreateCommit s rid sha a sb ts).2 rid sha a sb ts).2 =
        (getOrCreateCommit s rid sha a sb ts).2 ∧
      (getOrCreateCommit (getOrCreateCommit s rid sha a sb ts).2 rid sha a sb ts).1.id =
        (getOrCreateCommit s rid sha a sb ts).1.id) ∧
    (∀ (s : RegistryState) (k : String) (r : RepoRow),
      findRepo s.repos k = some r → insertRepoOrExisting s k = (r, s)) ∧
    (∀ (s : RegistryState) (rid : Nat) (sha a sb ts : String) (c : CommitRow),
      findCommit s.commits sha = some c →
        insertCommitOrExisting s rid sha a sb ts = (c, s)) := by
  refine ⟨?_, ?_, ?_, ?_⟩
  · intro s k
    cases hf : findRepo s.repos k with
    | some r =>
        simp [getOrCreateRepo, hf]
    | none =>
        have hfind2 : findRepo (getOrCreateRepo s k).2.repos k =
            some (getOrCreateRepo s k).1 := by
          simp only [getOrCreateRepo, insertRepoOrExisting, hf]
          unfold findRepo at hf ⊢
          rw [find?_append_of_none _ _ _ hf]
          simp [List.find?]
        have hsecond := getOrCreateRepo_of_found hfind2
        refine ⟨?_, ?_, ?_⟩ <;> rw [hsecond]
  · intro s rid sha a sb ts
    cases hf : findCommit s.commits sha with
    | some c =>
        simp [getOrCreateCommit, hf]
    | none =>
        have hfind2 : findCommit (getOrCreateCommit s rid sha a sb ts).2.commits sha =
            some (getOrCreateCommit s rid sha a sb ts).1 := by
          simp only [getOrCreateCommit, insertCommitOrExisting, hf]
          unfold findCommit at hf ⊢
          rw [find?_append_of_none _ _ _ hf]
          simp [List.find?]
        have hsecond := @getOrCreateCommit_of_found
          (getOrCreateCommit s rid sha a sb ts).2 rid sha a sb ts
          (getOrCreateCommit s rid sha a sb ts).1 hfind2
        refine ⟨?_, ?_, ?_⟩ <;> rw [hsecond]
  · intro s k r hf
    simp [insertRepoOrExisting, hf]
  · intro s rid sha a sb ts c hf
    simp [insertCommitOrExisting, hf]

theorem getOrCreate_idempotent_witness :
    (getOrCreateRepo (getOrCreateRepo registryEx "/tmp/test-repo").2 "/tmp/test-repo").1 =
      (getOrCreateRepo registryEx "/tmp/test-repo").1 ∧
    insertRepoOrExisting registryWithRepoEx "/tmp/test-repo" = (repoEx, registryWithRepoEx) :=
  ⟨(getOrCreate_idempotent.1 registryEx "/tmp/test-repo").1,
   getOrCreate_idempotent.2.2.1 registryWithRepoEx "/tmp/test-repo" repoEx (by rfl)⟩

/-- Lemma: `minIdJob` only answers "nothing" on the empty list. -/
theorem minIdJob_eq_none {l : List JobRow} (h : minIdJob l = none) : l = [] := by
  cases l with
  | nil => rfl
  | cons a rest =>
      exfalso
      unfold minIdJob at h
      cases hm : minIdJob rest with
      | none => rw [hm] at h; exact Option.noConfusion h
      | some b =>
          rw [hm] at h
          dsimp only at h
          by_cases hab : a.id ≤ b.id
          · rw [if_pos hab] at h; exact Option.noConfusion h
          · rw [if_neg hab] at h; exact Option.noConfusion h

/-- Lemma: `minIdJob` answers a member of the list. -/
theorem minIdJob_mem {l : List JobRow} {j : JobRow} (h : minIdJob l = some j) :
    j ∈ l := by
  induction l generalizing j with
  | nil => simp [minIdJob] at h
  | cons a rest ih =>
      unfold minIdJob at h
      cases hm : minIdJob rest with
      | none =>
          rw [hm] at h
          dsimp only at h
          simp only [Option.some.injEq] at h
          subst h
          exact List.mem_cons_self a rest
      | some b =>
          rw [hm] at h
          dsimp only at h
          by_cases hab : a.id ≤ b.id
          · rw [if_pos hab] at h
            simp only [Option.some.injEq] at h
            subst h
            exact List.mem_cons_self a rest
          · rw [if_neg hab] at h
            simp only [Option.some.injEq] at h
            subst h
            exact List.mem_cons_of_mem a (ih hm)

/-- Lemma: `minIdJob` answers a row of least identity. -/
theorem minIdJob_min {l : List JobRow} {j : JobRow} (h : minIdJob l = some j) :
    ∀ k ∈ l, j.id ≤ k.id := by
  induction l generalizing j with
  | nil => simp [minIdJob] at h
  | cons a rest ih =>
      unfold minIdJob at h
      cases hm : minIdJob rest with
      | none =>
          rw [hm] at h
          dsimp only at h
          simp only [Option.some.injEq] at h
          subst h
          have hrest := minIdJob_eq_none hm
          subst hrest
          intro k hk
          simp only [List.mem_singleton] at hk
          subst hk
          exact le_refl _
      | some b =>
          rw [hm] at h
          dsimp only at h
          intro k hk
          rcases List.mem_cons.mp hk with hk1 | hk2
          · rw [hk1]
            by_cases hab : a.id ≤ b.id
            · rw [if_pos hab] at h
              simp only [Option.some.injEq] at h
              subst h
              exact le_refl _
            · rw [if_neg hab] at h
              simp only [Option.some.injEq] at h
              subst h
              omega
          · have hb := ih hm k hk2
            by_cases hab : a.id ≤ b.id
            · rw [if_pos hab] at h
              simp only [Option.some.injEq] at h
              subst h
              exact le_trans hab hb
            · rw [if_neg hab] at h
              simp only [Option.some.injEq] at h
              subst h
              exact hb

/-- C2: `Claim` picks the `queued` job of least identity — the oldest by the
monotonically increasing enqueue sequence, across all repos — and hence jobs
enqueued with refs `c0, c1, c2` are claimed in exactly that order. -/
theorem claimJob_fifo (s : QueueState) (w : String)
    (hq : ∃ j, j ∈ s.jobs ∧ j.status = JobStatus.queued) :
    (∃ j0, j0 ∈ s.jobs ∧ j0.status = JobStatus.queued ∧
      (∀ k ∈ s.jobs, k.status = JobStatus.queued → j0.id ≤ k.id) ∧
      claimJob s w = (some (claimedRow s w j0),
        { s with jobs := updateJob s.jobs j0.id (claimedRow s w j0) })) ∧
    (∀ (now : String) (p0 p1 p2 : Nat) (r0 r1 r2 a0 a1 a2 w0 w1 w2 : String),
      fifoClaimedRefs now p0 p1 p2 r0 r1 r2 a0 a1 a2 w0 w1 w2 =
        [some r0, some r1, some r2]) := by
  constructor
  · obtain ⟨j, hjmem, hjq⟩ := hq
    cases hm : oldestQueued s.jobs with
    | none =>
        exfalso
        have hnil := minIdJob_eq_none (by simpa [oldestQueued] using hm)
        have : j ∈ s.jobs.filter (fun x => x.status = JobStatus.queued) := by
          simp [List.mem_filter, hjmem, hjq]
        rw [hnil] at this
        simp at this
    | some j0 =>
        have hj0f : j0 ∈ s.jobs.filter (fun x => x.status = JobStatus.queued) :=
          minIdJob_mem (by simpa [oldestQueued] using hm)
        have hj0mem : j0 ∈ s.jobs := (List.mem_filter.mp hj0f).1
        have hj0q : j0.status = JobStatus.queued := by
          simpa using (List.mem_filter.mp hj0f).2
        refine ⟨j0, hj0mem, hj0q, ?_, ?_⟩
        · intro k hk hkq
          exact minIdJob_min (by simpa [oldestQueued] using hm) k
            (by simp [List.mem_filter, hk, hkq])
        · simp [claimJob, hm]
  · intro now p0 p1 p2 r0 r1 r2 a0 a1 a2 w0 w1 w2
    rfl

theorem claimJob_fifo_witness :
    fifoClaimedRefs "t9" 1 2 3 "c0" "c1" "c2" "codex" "codex" "codex" "w0" "w1" "w2" =
      [some "c0", some "c1", some "c2"] :=
  (claimJob_fifo queueEx "w" ⟨jobQueuedEx, by decide, rfl⟩).2
    "t9" 1 2 3 "c0" "c1" "c2" "codex" "codex" "codex" "w0" "w1" "w2"

/-- Lemma: an update that matches no row is the identity. -/
theorem updateJob_not_mem {l : List JobRow} {i : Nat} {j2 : JobRow}
    (h : ∀ x ∈ l, x.id ≠ i) : updateJob l i j2 = l := by
  induction l with
  | nil => rfl
  | cons a rest ih =>
      unfold updateJob
      simp only [List.map_cons]
      rw [if_neg (h a (List.mem_cons_self a rest))]
      have htail := ih (fun x hx => h x (List.mem_cons_of_mem a hx))
      unfold updateJob at htail
      rw [htail]

/-- Lemma: an update whose replacement keeps the identity keeps the list of
identities. -/
theorem updateJob_map_id {l : List JobRow} {i : Nat} {j2 : JobRow}
    (h : j2.id = i) : (updateJob l i j2).map JobRow.id = l.map JobRow.id := by
  induction l with
  | nil => rfl
  | cons a rest ih =>
      unfold updateJob at ih ⊢
      simp only [List.map_cons]
      by_cases hai : a.id = i
      · rw [if_pos hai, ih, h, hai]
      · rw [if_neg hai, ih]

/-- Lemma: distinct row identities make the queued identities distinct. -/
theorem queuedIds_nodup {l : List JobRow} (h : (l.map JobRow.id).Nodup) :
    (queuedIds l).Nodup :=
  h.sublist (List.Sublist.map JobRow.id (List.filter_sublist l))

/-- Lemma: `updateJob` acts pointwise on a cons cell. -/
theorem updateJob_cons (a : JobRow) (l : List JobRow) (i : Nat) (j2 : JobRow) :
    updateJob (a :: l) i j2 = (if a.id = i then j2 else a) :: updateJob l i j2 := rfl

/-- Lemma: the queued identities of a cons cell. -/
theorem queuedIds_cons (a : JobRow) (l : List JobRow) :
    queuedIds (a :: l) = if a.status = JobStatus.queued
      then a.id :: queuedIds l else queuedIds l := by
  by_cases h : a.status = JobStatus.queued
  · simp [queuedIds, List.filter_cons, h]
  · simp [queuedIds, List.filter_cons, h]

/-- Lemma: claiming the queued row `j` (rewriting it to a non-queued row of
the same identity) removes exactly `j.id` from the queued identities. -/
theorem queuedIds_updateJob {l : List JobRow} {j j2 : JobRow}
    (hnd : (l.map JobRow.id).Nodup) (hmem : j ∈ l)
    (hq : j.status = JobStatus.queued) (hq2 : j2.status ≠ JobStatus.queued) :
    queuedIds (updateJob l j.id j2) = (queuedIds l).erase j.id := by
  induction l with
  | nil => simp at hmem
  | cons a rest ih =>
      have hcons : (a.id :: rest.map JobRow.id).Nodup := by
        rw [List.map_cons] at hnd
        exact hnd
      have hna : a.id ∉ rest.map JobRow.id := (List.nodup_cons.mp hcons).1
      have hnd2 : (rest.map JobRow.id).Nodup := (List.nodup_cons.mp hcons).2
      by_cases hai : a.id = j.id
      · have hja : j = a := by
          rcases List.mem_cons.mp hmem with h1 | h2
          · exact h1
          · exfalso
            apply hna
            rw [hai]
            exact List.mem_map_of_mem JobRow.id h2
        subst hja
        have hrest : updateJob rest j.id j2 = rest := by
          apply updateJob_not_mem
          intro x hx hxe
          apply hna
          rw [← hxe]
          exact List.mem_map_of_mem JobRow.id hx
        rw [updateJob_cons, if_pos rfl, hrest, queuedIds_cons, queuedIds_cons,
          if_neg hq2, if_pos hq, List.erase_cons_head]
      · have hjr : j ∈ rest := by
          rcases List.mem_cons.mp hmem with h1 | h2
          · exact absurd (congrArg JobRow.id h1.symm) hai
          · exact h2
        have ihr := ih hnd2 hjr
        rw [updateJob_cons, if_neg hai, queuedIds_cons, queuedIds_cons]
        by_cases haq : a.status = JobStatus.queued
        · rw [if_pos haq, if_pos haq, ihr]
          rw [List.erase_cons_tail]
          simp [hai]
        · rw [if_neg haq, if_neg haq, ihr]

/-- Lemma: with nothing queued, `Claim` answers "no job" and changes
nothing. -/
theorem claimJob_eq_none {s : QueueState} {w : String}
    (h : oldestQueued s.jobs = none) : claimJob s w = (none, s) := by
  simp [claimJob, h]

/-- Lemma: with `j` the oldest queued row, `Claim` answers the transitioned
row and rewrites exactly that row. -/
theorem claimJob_eq_some {s : QueueState} {w : String} {j : JobRow}
    (h : oldestQueued s.jobs = some j) :
    claimJob s w = (some (claimedRow s w j),
      { s with jobs := updateJob s.jobs j.id (claimedRow s w j) }) := by
  simp [claimJob, h]

/-- Lemma: an empty `oldestQueued` answer means no queued identities. -/
theorem queuedIds_nil_of_oldest_none {jobs : List JobRow}
    (h : oldestQueued jobs = none) : queuedIds jobs = [] := by
  have h2 := minIdJob_eq_none
    (show minIdJob (jobs.filter (fun x => x.status = JobStatus.queued)) = none from h)
  unfold queuedIds
  rw [h2]
  rfl

/-- Lemma: the `oldestQueued` answer is a queued member of the table. -/
theorem oldestQueued_spec {jobs : List JobRow} {j : JobRow}
    (h : oldestQueued jobs = some j) :
    j ∈ jobs ∧ j.status = JobStatus.queued ∧ j.id ∈ queuedIds jobs := by
  have hf := minIdJob_mem
    (show minIdJob (jobs.filter (fun x => x.status = JobStatus.queued)) = some j from h)
  have hm := List.mem_filter.mp hf
  refine ⟨hm.1, by simpa using hm.2, ?_⟩
  unfold queuedIds
  exact List.mem_map_of_mem JobRow.id hf

/-- C1: each `Claim` being one indivisible read-modify-write, a burst of `N`
claims in any order over a table with `M` queued jobs (row identities
distinct, as the primary key guarantees) hands out exactly the `M` queued
jobs — each to exactly one caller, never to two — in `running` state, and the
other `N − M` callers observe the explicit "no job" result. -/
theorem claim_exclusive (s : QueueState) (workers : List String)
    (hnd : (s.jobs.map JobRow.id).Nodup)
    (hN : (queuedIds s.jobs).length ≤ workers.length) :
    List.Perm (claimedIds (runClaims s workers).1) (queuedIds s.jobs) ∧
    (claimedIds (runClaims s workers).1).Nodup ∧
    (runClaims s workers).1.count none =
      workers.length - (queuedIds s.jobs).length ∧
    (∀ j : JobRow, some j ∈ (runClaims s workers).1 →
      j.status = JobStatus.running) := by
  induction workers generalizing s with
  | nil =>
      have hq0 : queuedIds s.jobs = [] :=
        List.length_eq_zero.mp (Nat.le_zero.mp hN)
      refine ⟨?_, ?_, ?_, ?_⟩
      · simp [runClaims, claimedIds, hq0]
      · simp [runClaims, claimedIds]
      · simp [runClaims, hq0]
      · intro j hj
        simp [runClaims] at hj
  | cons w ws ih =>
      cases hoq : oldestQueued s.jobs with
      | none =>
          have hq0 : queuedIds s.jobs = [] := queuedIds_nil_of_oldest_none hoq
          have hc := @claimJob_eq_none s w hoq
          have hrun : runClaims s (w :: ws) =
              (none :: (runClaims s ws).1, (runClaims s ws).2) := by
            simp [runClaims, hc]
          obtain ⟨ihp, ihnd, ihc, ihst⟩ := ih s hnd (by simp [hq0])
          refine ⟨?_, ?_, ?_, ?_⟩
          · rw [hrun]
            simpa [claimedIds] using ihp
          · rw [hrun]
            simpa [claimedIds] using ihnd
          · rw [hrun]
            simp only [hq0, List.length_nil, Nat.sub_zero] at ihc ⊢
            simp [List.count_cons, ihc]
          · intro j hj
            rw [hrun] at hj
            rcases List.mem_cons.mp hj with h1 | h2
            · exact absurd h1 (by simp)
            · exact ihst j h2
      | some j =>
          have hc := @claimJob_eq_some s w j hoq
          obtain ⟨hjmem, hjq, hjid⟩ := oldestQueued_spec hoq
          have hrun : runClaims s (w :: ws) =
              (some (claimedRow s w j) ::
                 (runClaims { s with jobs := updateJob s.jobs j.id (claimedRow s w j) } ws).1,
               (runClaims { s with jobs := updateJob s.jobs j.id (claimedRow s w j) } ws).2) := by
            simp [runClaims, hc]
          have hnd2 : (({ s with jobs := updateJob s.jobs j.id (claimedRow s w j) } :
              QueueState).jobs.map JobRow.id).Nodup := by
            have := @updateJob_map_id s.jobs j.id (claimedRow s w j) rfl
            simpa [this] using hnd
          have hQ2 : queuedIds (updateJob s.jobs j.id (claimedRow s w j)) =
              (queuedIds s.jobs).erase j.id := by
            apply queuedIds_updateJob hnd hjmem hjq
            intro hcon
            exact JobStatus.noConfusion hcon
          have hM : 0 < (queuedIds s.jobs).length := List.length_pos_of_mem hjid
          have hNw : (queuedIds s.jobs).length ≤ ws.length + 1 := by
            simpa using hN
          have hN2 : (queuedIds (updateJob s.jobs j.id (claimedRow s w j))).length ≤
              ws.length := by
            rw [hQ2, List.length_erase_of_mem hjid]
            omega
          obtain ⟨ihp, ihnd, ihc, ihst⟩ :=
            ih { s with jobs := updateJob s.jobs j.id (claimedRow s w j) } hnd2 hN2
          have hQnodup : (queuedIds s.jobs).Nodup := queuedIds_nodup hnd
          rw [hQ2] at ihp
          refine ⟨?_, ?_, ?_, ?_⟩
          · rw [hrun]
            simp only [claimedIds, List.filterMap_cons, Option.map_some] at ihp ⊢
            have hperm := List.Perm.cons j.id ihp
            exact hperm.trans (List.perm_cons_erase hjid).symm
          · rw [hrun]
            simp only [claimedIds, List.filterMap_cons, Option.map_some] at ihp ihnd ⊢
            refine List.nodup_cons.mpr ⟨?_, ihnd⟩
            intro hmemc
            have : (claimedRow s w j).id ∈ (queuedIds s.jobs).erase j.id :=
              ihp.mem_iff.mp hmemc
            have hne := (hQnodup.mem_erase_iff.mp this).1
            exact hne rfl
          · rw [hrun]
            simp only [List.count_cons]
            rw [ihc, hQ2, List.length_erase_of_mem hjid]
            simp only [List.length_cons]
            have hsome : ((some (claimedRow s w j) : Option JobRow) == none) = false := rfl
            rw [hsome]
            simp only [Bool.false_eq_true, if_false]
            omega
          · intro j3 hj3
            rw [hrun] at hj3
            rcases List.mem_cons.mp hj3 with h1 | h2
            · have hj3e : j3 = claimedRow s w j := by
                simpa using h1
              rw [hj3e]
              rfl
            · exact ihst j3 h2

theorem claim_exclusive_witness :
    List.Perm (claimedIds (runClaims queueEx ["w1", "w2", "w3"]).1)
      (queuedIds queueEx.jobs) ∧
    (claimedIds (runClaims queueEx ["w1", "w2", "w3"]).1).Nodup ∧
    (runClaims queueEx ["w1", "w2", "w3"]).1.count none =
      (["w1", "w2", "w3"] : List String).length - (queuedIds queueEx.jobs).length :=
  ⟨(claim_exclusive queueEx ["w1", "w2", "w3"] (by decide) (by decide)).1,
   (claim_exclusive queueEx ["w1", "w2", "w3"] (by decide) (by decide)).2.1,
   (claim_exclusive queueEx ["w1", "w2", "w3"] (by decide) (by decide)).2.2.1⟩
